import Mathlib

/-!
Verification development for the timetable genetic-algorithm engine
(`models.py`, `genetic_algorithm.py`, `database.py`).

Shallow embedding conventions:
* days are modelled as `Nat` indices `0..5` into the `DAYS` list;
* periods and period counts are `Int` (Python ints);
* semester / faculty / course ids are `Nat`;
* Python `None` placements become `Option`;
* Python `set` objects are modelled as lists used only through membership
  (`set.add` of a present element is a no-op, so consing preserves the
  membership semantics);
* random draws (`random.choice`, `random.randint`, `random.sample`,
  `random.shuffle`, `random.random`) are threaded as explicit parameters,
  with the guarantees of the drawing primitive stated as hypotheses;
* a Python `raise` becomes `none` / `Except.error`.
-/

/-- One `ScheduledClass` instance (a gene): `models.py`, class `ScheduledClass`.
The display-only back references (`semester_obj`, `course_obj`, `faculty_objs`)
carry no scheduling information and are omitted. -/
structure Gene where
  semester_id : Nat
  course_id : Nat
  faculty_ids : List Nat
  day : Option Nat
  start_period : Option Int
  periods_count : Int
  is_lab : Bool
deriving DecidableEq, Repr

/-- A chromosome is the ordered list of its scheduled classes
(`genetic_algorithm.py`, class `TimetableChromosome`). -/
abbrev Chrom := List Gene

/-- An entry of an occupancy set keyed by a resource id:
`(resource_id, (day, period))`, mirroring `{ID: {(day, period_num), ...}}`. -/
abbrev OccEntry := Nat × Nat × Int

/-- The 1-hour timeslots occupied by a class placed on day `d` starting at
period `s` with `c` periods: `range(start_period, end_period + 1)` paired
with the day (`calculate`, lines 103-106). -/
def geneTimeslots (d : Nat) (s : Int) (c : Int) : List (Nat × Int) :=
  (List.range c.toNat).map (fun (i : Nat) => (d, s + (i : Int)))

/-- Occupied timeslots of a gene, or `[]` when it is unplaced. -/
def occupiedOf (g : Gene) : List (Nat × Int) :=
  match g.day, g.start_period with
  | some d, some s => geneTimeslots d s g.periods_count
  | _, _ => []

/-- The H1/H2 collision scan of `calculate` (lines 110-123): walk the gene's
timeslots in order; if the current timeslot is already occupied for resource
`k`, add the 1000 penalty once and stop (the Python `break`), leaving the
remaining timeslots un-added; otherwise add the timeslot and continue. -/
def scanOcc (k : Nat) : List (Nat × Int) → List OccEntry → Nat × List OccEntry
  | [], occ => (0, occ)
  | t :: ts, occ =>
    if (k, t.1, t.2) ∈ occ then (1000, occ)
    else scanOcc k ts ((k, t.1, t.2) :: occ)

/-- The H2 loop over the gene's faculty list (`calculate`, lines 118-123):
each faculty id runs the collision scan against the shared faculty
occupancy, threading the updated occupancy to the next faculty. -/
def scanFacs (fids : List Nat) (ts : List (Nat × Int)) (facOcc : List OccEntry) :
    Nat × List OccEntry :=
  fids.foldl
    (fun acc fid =>
      let r := scanOcc fid ts acc.2
      (acc.1 + r.1, r.2))
    (0, facOcc)

/-- H3, faculty blocked hours (`calculate`, lines 126-130): for each faculty
id of the gene, 500 if any occupied timeslot is blocked for that faculty. -/
def blockedPen (bl : List OccEntry) (fids : List Nat) (ts : List (Nat × Int)) : Nat :=
  (fids.map (fun fid =>
    if ts.any (fun t => decide ((fid, t.1, t.2) ∈ bl)) then 500 else 0)).sum

/-- H4 (lab shape) and H5 (theory period limit) of `calculate`
(lines 132-145), for a gene placed at start period `s`. -/
def shapePen (g : Gene) (s : Int) : Nat :=
  let e : Int := s + g.periods_count - 1
  if g.is_lab then
    (if g.periods_count ≠ 2 then 500 else 0) +
    (if e > 6 then 500 else 0) +
    (if g.periods_count > 1 ∧ e - s + 1 ≠ g.periods_count then 500 else 0)
  else
    if e > 4 then 750 else 0

/-- S1, faculty preferred hours (`calculate`, lines 149-158): for each
faculty id, 10 unless every occupied timeslot is preferred. -/
def preferredPen (pf : List OccEntry) (fids : List Nat) (ts : List (Nat × Int)) : Nat :=
  (fids.map (fun fid =>
    if ts.any (fun t => decide ((fid, t.1, t.2) ∉ pf)) then 10 else 0)).sum

/-- S2, a 2-period lab starting at period 2 or 4 crosses a break
(`calculate`, lines 160-164). -/
def labBreakPen (g : Gene) (s : Int) : Nat :=
  if g.is_lab ∧ g.periods_count = 2 ∧ (s = 2 ∨ s = 4) then 5 else 0

/-- Running state of the per-gene loop of `calculate`: the semester and
faculty occupancy sets, the flat per-(semester, day) and per-(faculty, day)
period schedules used by S3/S4/S5, and the hard/soft penalty accumulators. -/
structure CalcState where
  semOcc : List OccEntry
  facOcc : List OccEntry
  semSched : List ((Nat × Nat) × Int)
  facSched : List ((Nat × Nat) × Int)
  hard : Nat
  soft : Nat
deriving DecidableEq, Repr

def initCalcState : CalcState :=
  { semOcc := [], facOcc := [], semSched := [], facSched := [], hard := 0, soft := 0 }

/-- Body of the per-gene loop of `calculate` (lines 97-172), parameterized
by the collision-scan routine so the code's scan and the specification's
wording of the scan can be compared.  An unplaced gene adds the 1000
penalty and is skipped (lines 99-101). -/
def processGeneWith (scan : Nat → List (Nat × Int) → List OccEntry → Nat × List OccEntry)
    (bl pf : List OccEntry) (st : CalcState) (g : Gene) : CalcState :=
  match g.day, g.start_period with
  | some d, some s =>
    let occ := geneTimeslots d s g.periods_count
    let r1 := scan g.semester_id occ st.semOcc
    let r2 :=
      g.faculty_ids.foldl
        (fun acc fid =>
          let r := scan fid occ acc.2
          (acc.1 + r.1, r.2))
        (0, st.facOcc)
    { semOcc := r1.2
      facOcc := r2.2
      semSched := st.semSched ++ occ.map (fun t => ((g.semester_id, t.1), t.2))
      facSched := st.facSched ++
        g.faculty_ids.flatMap (fun fid => occ.map (fun t => ((fid, t.1), t.2)))
      hard := st.hard + r1.1 + r2.1 + blockedPen bl g.faculty_ids occ + shapePen g s
      soft := st.soft + preferredPen pf g.faculty_ids occ + labBreakPen g s }
  | _, _ => { st with hard := st.hard + 1000 }

/-- The per-gene loop of `calculate` as implemented (using the code's scan). -/
def processGene (bl pf : List OccEntry) (st : CalcState) (g : Gene) : CalcState :=
  processGeneWith scanOcc bl pf st g

/-- State after the per-gene loop of `calculate` over a whole chromosome. -/
def calcState (bl pf : List OccEntry) (c : Chrom) : CalcState :=
  c.foldl (processGene bl pf) initCalcState

/-- The spread penalty of one (resource, day) cell (`calculate`,
lines 175-199): periods are de-duplicated for the span but the raw count
(each append also bumped `total_hours` by one) is subtracted. -/
def gapsOf (ps : List Int) : Int :=
  match ps with
  | [] => 0
  | p :: rest => (rest.foldl max p - rest.foldl min p + 1) - (ps.length : Int)

/-- The periods recorded for key `k` in a flat schedule list. -/
def periodsAt (sched : List ((Nat × Nat) × Int)) (k : Nat × Nat) : List Int :=
  sched.filterMap (fun e => if e.1 = k then some e.2 else none)

/-- S3, semester compactness (`calculate`, lines 174-185): 2 per gap,
summed over the (semester, day) cells present in the schedule. -/
def s3Pen (sched : List ((Nat × Nat) × Int)) : Nat :=
  ((sched.map Prod.fst).dedup.map (fun k =>
    let gaps := gapsOf (periodsAt sched k)
    if gaps > 0 then gaps.toNat * 2 else 0)).sum

/-- S4 and S5, faculty compactness and single-class days (`calculate`,
lines 187-203): 3 per gap plus 15 when exactly one hour is scheduled,
summed over the (faculty, day) cells present in the schedule. -/
def s45Pen (sched : List ((Nat × Nat) × Int)) : Nat :=
  ((sched.map Prod.fst).dedup.map (fun k =>
    let ps := periodsAt sched k
    let gaps := gapsOf ps
    (if gaps > 0 then gaps.toNat * 3 else 0) +
    (if ps.length = 1 then 15 else 0))).sum

/-- Total hard penalty (H0 unplaced, H1/H2 collisions, H3 blocked,
H4 lab shape, H5 theory limit) accumulated by `calculate`. -/
def hardPen (bl pf : List OccEntry) (c : Chrom) : Nat :=
  (calcState bl pf c).hard

/-- Total soft penalty (S1 preferred, S2 break, S3/S4 spread, S5 single
class day) accumulated by `calculate`. -/
def softPen (bl pf : List OccEntry) (c : Chrom) : Nat :=
  (calcState bl pf c).soft + s3Pen (calcState bl pf c).semSched +
    s45Pen (calcState bl pf c).facSched

/-- `total_penalties` at the end of `calculate` (line 206). -/
def calcPenalties (bl pf : List OccEntry) (c : Chrom) : Nat :=
  hardPen bl pf c + softPen bl pf c

/-- The fitness returned by `TimetableFitness.calculate` (lines 206-208):
the negated total penalty. -/
def score (bl pf : List OccEntry) (c : Chrom) : Int :=
  -(calcPenalties bl pf c : Int)

/-- Modelled from the claim's wording of the collision scan: membership is
tested in sequence order against the set built from earlier genes, on the
first hit the penalty is added once and scanning stops, and afterwards all
of the gene's occupied periods are added to the occupied set. -/
def scanOccClaim (k : Nat) (ts : List (Nat × Int)) (occ : List OccEntry) :
    Nat × List OccEntry :=
  ((if ts.any (fun t => decide ((k, t.1, t.2) ∈ occ)) then 1000 else 0),
   ts.map (fun t => (k, t.1, t.2)) ++ occ)

/-- Total penalty under the claim's wording of the collision scan. -/
def calcPenaltiesClaim (bl pf : List OccEntry) (c : Chrom) : Nat :=
  let st := c.foldl (processGeneWith scanOccClaim bl pf) initCalcState
  st.hard + (st.soft + s3Pen st.semSched + s45Pen st.facSched)

/-- Three genes in one semester: a theory class at (day 0, period 1), a lab at
(day 0, periods 1-2) and a theory class at (day 0, period 2), with distinct
faculties. -/
def cexC1 : Chrom :=
  [{ semester_id := 0, course_id := 0, faculty_ids := [1], day := some 0,
     start_period := some 1, periods_count := 1, is_lab := false },
   { semester_id := 0, course_id := 1, faculty_ids := [2], day := some 0,
     start_period := some 1, periods_count := 2, is_lab := true },
   { semester_id := 0, course_id := 2, faculty_ids := [3], day := some 0,
     start_period := some 2, periods_count := 1, is_lab := false }]

/-- `_get_random_timeslot` (lines 239-267), with the two random draws made
explicit: `d` is the outcome of `random.choice(self.days)` (as an index into
`DAYS`) and `s` the outcome of `random.randint(1, max_start)`.  `none`
models the `ValueError` raises for a `periods_count` that exceeds the type
bound. -/
def getRandomTimeslot (c : Int) (lab : Bool) (d : Nat) (s : Int) : Option (Nat × Int) :=
  match lab with
  | false =>
    if c > 4 then none
    else if 4 - c + 1 < 1 then none
    else some (d, s)
  | true =>
    if 6 - c + 1 < 1 then none
    else some (d, s)

/-- `create_individual` (lines 335-347): copy each template gene and assign
it the day and start period drawn by `_get_random_timeslot`; the draw
outcomes for the i-th gene are supplied as `picks[i]`.  `none` models a
raise (or missing draws). -/
def createIndividual : List Gene → List (Nat × Int) → Option Chrom
  | [], _ => some []
  | g :: gs, p :: ps =>
    match getRandomTimeslot g.periods_count g.is_lab p.1 p.2 with
    | none => none
    | some ds =>
      match createIndividual gs ps with
      | none => none
      | some rest =>
        some ({ g with day := some ds.1, start_period := some ds.2 } :: rest)
  | _ :: _, [] => none

/-- A course as the derivation reads it: its id and weekly hours
(`models.py`, class `Course`; `code`, `name` and `type` are not read by
`get_classes_to_schedule`). -/
structure Course where
  id : Nat
  hours_per_week : Nat
deriving DecidableEq, Repr

/-- A theory mapping's foreign keys (`models.py`, class `TheoryMapping`). -/
structure TheoryMapping where
  semester_id : Nat
  course_id : Nat
  faculty_id : Nat
deriving DecidableEq, Repr

/-- A lab mapping's foreign keys (`models.py`, class `LabMapping`). -/
structure LabMapping where
  semester_id : Nat
  lab_course_id : Nat
  faculty_id_1 : Nat
  faculty_id_2 : Nat
deriving DecidableEq, Repr

/-- The slice of the `all_data` dictionary the engine reads.  Semesters and
faculty are represented by their id lists; a mapping's reference resolves
(the loader's `dict.get` returns an object rather than `None`) exactly when
the referenced id is present. -/
structure AllData where
  semesters : List Nat
  faculty : List Nat
  courses : List Course
  theory_mappings : List TheoryMapping
  lab_mappings : List LabMapping
deriving DecidableEq, Repr

/-- The gene a resolvable theory mapping contributes
(`database.py`, line 559). -/
def theoryGene (sem cid fid : Nat) : Gene :=
  { semester_id := sem, course_id := cid, faculty_ids := [fid], day := none,
    start_period := none, periods_count := 1, is_lab := false }

/-- The gene a resolvable lab mapping contributes
(`database.py`, line 570). -/
def labGene (sem cid f1 f2 : Nat) : Gene :=
  { semester_id := sem, course_id := cid, faculty_ids := [f1, f2], day := none,
    start_period := none, periods_count := 2, is_lab := true }

/-- `get_classes_to_schedule` (`database.py`, lines 553-578): theory
mappings first, then lab mappings, skipping any mapping with a dangling
reference. -/
def get_classes_to_schedule (data : AllData) : List Gene :=
  let afterTheory := data.theory_mappings.foldl
    (fun acc tm =>
      match data.courses.find? (fun co => co.id == tm.course_id) with
      | some co =>
        if tm.faculty_id ∈ data.faculty ∧ tm.semester_id ∈ data.semesters then
          acc ++ List.replicate co.hours_per_week
            (theoryGene tm.semester_id co.id tm.faculty_id)
        else acc
      | none => acc)
    []
  data.lab_mappings.foldl
    (fun acc lm =>
      match data.courses.find? (fun co => co.id == lm.lab_course_id) with
      | some co =>
        if lm.faculty_id_1 ∈ data.faculty ∧ lm.faculty_id_2 ∈ data.faculty ∧
            lm.semester_id ∈ data.semesters then
          acc ++ [labGene lm.semester_id co.id lm.faculty_id_1 lm.faculty_id_2]
        else acc
      | none => acc)
    afterTheory

/-- The validation at the head of `GeneticAlgorithm.__init__`
(lines 229-234); `error` models the `ValueError` raises, checked in the
code's order. -/
def gaInit (classes_to_schedule : List Gene) (data : AllData) : Except String Unit :=
  if classes_to_schedule.isEmpty then
    Except.error "No classes to schedule found. Please add courses and mappings."
  else if data.semesters.isEmpty then
    Except.error "No semesters defined in the database."
  else if data.faculty.isEmpty then
    Except.error "No faculty defined in the database."
  else Except.ok ()

/-- Python `max(lst, key=lambda x: x.fitness)` seeded with a first element:
keeps the earlier element on ties (the first maximum). -/
def maxFit (bl pf : List OccEntry) : Chrom → List Chrom → Chrom
  | best, [] => best
  | best, c :: cs =>
    maxFit bl pf (if score bl pf c > score bl pf best then c else best) cs

/-- `random.sample(population, k)` with the drawn positions made explicit:
it raises (`none`) exactly when `k` exceeds the population size; the
guarantees of the draw (`idxs` are `k` distinct in-range positions) are
stated as hypotheses where used. -/
def randomSample (pop : List Chrom) (k : Nat) (idxs : List Nat) : Option (List Chrom) :=
  if k ≤ pop.length then some (idxs.filterMap (fun i => pop[i]?)) else none

/-- One tournament of `GeneticAlgorithm.selection` (lines 362-365): sample
`tournament_size = 5` competitors and keep the fittest (`max` keeps the
first maximum; `max` of an empty sample would raise, hence `none`). -/
def tournament (bl pf : List OccEntry) (pop : List Chrom) (idxs : List Nat) :
    Option Chrom :=
  match randomSample pop 5 idxs with
  | none => none
  | some [] => none
  | some (c :: cs) => some (maxFit bl pf c cs)

/-- `GeneticAlgorithm.selection` (lines 358-366): one tournament per slot of
the parent list; `samples` holds each tournament's position draws
(`population_size` of them when called from `run`). -/
def selection (bl pf : List OccEntry) (pop : List Chrom) :
    List (List Nat) → Option (List Chrom)
  | [] => some []
  | idxs :: rest =>
    match tournament bl pf pop idxs with
    | none => none
    | some w =>
      match selection bl pf pop rest with
      | none => none
      | some ws => some (w :: ws)

/-- A gene left unplaced: scoring it costs exactly the 1000 H0 penalty, so
chromosomes made of k copies score -1000k. -/
def uGene : Gene :=
  { semester_id := 0, course_id := 0, faculty_ids := [1], day := none,
    start_period := none, periods_count := 1, is_lab := false }

/-- A 5-chromosome population with pairwise distinct scores
(-1000, ..., -5000); its unique fittest member sits at position 0. -/
def pop5 : List Chrom :=
  [List.replicate 1 uGene, List.replicate 2 uGene, List.replicate 3 uGene,
   List.replicate 4 uGene, List.replicate 5 uGene]

/-- Arrangements of a list by structural recursion (so that the kernel can
evaluate them): used to enumerate, in a closed statement, every
without-replacement draw of 5 positions over a 5-element population. -/
def insertEverywhere (x : Nat) : List Nat → List (List Nat)
  | [] => [[x]]
  | y :: ys => (x :: y :: ys) :: (insertEverywhere x ys).map (fun l => y :: l)

def permsOf : List Nat → List (List Nat)
  | [] => [[]]
  | x :: xs => (permsOf xs).flatMap (insertEverywhere x)

/-- Replace the (day, start_period) of the genes at positions `[k, L)` of
`c` by those of `other` (lines 376-382), walking the list with its
position.  Positions beyond `other` are left untouched; they are
unreachable in `run`, where every chromosome has the template length `L`
(the Python code would raise `IndexError` there). -/
def crossMixFrom (k L : Nat) : Nat → List Gene → List Gene → List Gene
  | _, [], _ => []
  | j, g :: gs, other =>
    (if k ≤ j ∧ j < L then
      match other[j]? with
      | some o => { g with day := o.day, start_period := o.start_period }
      | none => g
    else g) :: crossMixFrom k L (j + 1) gs other

def crossMix (k L : Nat) (c other : List Gene) : List Gene :=
  crossMixFrom k L 0 c other

/-- `GeneticAlgorithm.crossover` (lines 368-386): `doCross` is the outcome
of `random.random() < self.crossover_rate` and `k` the outcome of
`random.randint(1, L - 1)`, `L` being the template length; `none` models
the `ValueError` that `randint` raises on the empty range `(1, 0)` reached
when `L ≤ 1`. -/
def crossover (L : Nat) (doCross : Bool) (k : Nat) (p1 p2 : Chrom) :
    Option (Chrom × Chrom) :=
  if doCross then
    if L - 1 < 1 then none
    else some (crossMix k L p1 p2, crossMix k L p2 p1)
  else some (p1, p2)

/-- Genes used by the C4 witness: two placed theory genes. -/
def gA : Gene :=
  { semester_id := 0, course_id := 0, faculty_ids := [1], day := some 0,
    start_period := some 1, periods_count := 1, is_lab := false }

def gB : Gene :=
  { semester_id := 0, course_id := 1, faculty_ids := [2], day := some 1,
    start_period := some 2, periods_count := 1, is_lab := false }

/-- Python `max(population, key=lambda x: x.fitness)`: the first maximum;
`none` models the raise on an empty population. -/
def popBest (bl pf : List OccEntry) : List Chrom → Option Chrom
  | [] => none
  | c :: cs => some (maxFit bl pf c cs)

/-- The generation loop of `GeneticAlgorithm.run` (lines 419-457).
`reproduce t pop` abstracts the reproduction phase of generation `t`
(selection, pair shuffle, crossover, mutation and scoring of the children,
lines 428-448) together with all its random draws; `t` is the generation
index and `r` the remaining generation count.  Each iteration re-scores the
population (a no-op for the pure evaluator), takes the generation's first
maximum, promotes it to best-seen when strictly fitter (lines 424-426),
replaces the population by the bred children (line 449), and stops early
once the best-seen fitness reaches 0 (line 455). -/
def gaLoop (bl pf : List OccEntry) (reproduce : Nat → List Chrom → List Chrom) :
    Nat → Nat → List Chrom → Chrom → Option Chrom
  | _, 0, _, best => some best
  | t, r + 1, pop, best =>
    match popBest bl pf pop with
    | none => none
    | some cur =>
      let best' := if score bl pf cur > score bl pf best then cur else best
      if 0 ≤ score bl pf best' then some best'
      else gaLoop bl pf reproduce (t + 1) r (reproduce t pop) best'

/-- `GeneticAlgorithm.run` (lines 412-460): score the initial population,
seed best-seen with its maximum (line 417), loop the generations and return
best-seen. -/
def gaRun (bl pf : List OccEntry) (reproduce : Nat → List Chrom → List Chrom)
    (gens : Nat) (init : List Chrom) : Option Chrom :=
  match popBest bl pf init with
  | none => none
  | some b0 => gaLoop bl pf reproduce 0 gens init b0

/-- The population standing at the start of generation `t + k`, obtained
from the population `pop` of generation `t` by `k` reproduction rounds. -/
def popsFrom (reproduce : Nat → List Chrom → List Chrom) :
    Nat → List Chrom → Nat → List Chrom
  | _, pop, 0 => pop
  | t, pop, k + 1 => popsFrom reproduce (t + 1) (reproduce t pop) k

/-- Two theory classes of one semester placed on the same day and period:
an H1 collision plus soft penalties, scoring -1050. -/
def cBad : Chrom :=
  [{ semester_id := 0, course_id := 0, faculty_ids := [1], day := some 0,
     start_period := some 1, periods_count := 1, is_lab := false },
   { semester_id := 0, course_id := 1, faculty_ids := [2], day := some 0,
     start_period := some 1, periods_count := 1, is_lab := false }]

/-- The same two classes on consecutive periods: no collision,
scoring -50. -/
def cGood : Chrom :=
  [{ semester_id := 0, course_id := 0, faculty_ids := [1], day := some 0,
     start_period := some 1, periods_count := 1, is_lab := false },
   { semester_id := 0, course_id := 1, faculty_ids := [2], day := some 0,
     start_period := some 2, periods_count := 1, is_lab := false }]

/-- Integer interval `[a, b]`, the values of Python `range(a, b + 1)`. -/
def intRange (a b : Int) : List Int :=
  (List.range (b - a + 1).toNat).map (fun (i : Nat) => a + (i : Int))

/-- The semester-keyed occupancy of every *other* gene of the chromosome
(lines 275-287: the loop skips the gene being re-placed — identified by
identity in Python, by its position `i` here — and unplaced genes
contribute nothing). -/
def tempSemOcc (genes : List Gene) (i : Nat) : List OccEntry :=
  (genes.eraseIdx i).flatMap (fun g =>
    (occupiedOf g).map (fun t => (g.semester_id, t.1, t.2)))

/-- The faculty-keyed occupancy of every other gene (same loop). -/
def tempFacOcc (genes : List Gene) (i : Nat) : List OccEntry :=
  (genes.eraseIdx i).flatMap (fun g =>
    g.faculty_ids.flatMap (fun fid =>
      (occupiedOf g).map (fun t => (fid, t.1, t.2))))

/-- The validity check of one candidate (day, start) in
`_attempt_find_empty_slot` (lines 296-323): the type-bound fit, then per
occupied period the semester-collision check and, per faculty, the
faculty-collision and blocked checks. -/
def slotOk (bl : List OccEntry) (g : Gene) (so fo : List OccEntry)
    (d : Nat) (s : Int) : Bool :=
  let maxEnd : Int := if !g.is_lab then 4 else 6
  (!(decide (s + g.periods_count - 1 > maxEnd))) &&
  ((List.range g.periods_count.toNat).all (fun (off : Nat) =>
    (!(decide ((g.semester_id, d, s + (off : Int)) ∈ so))) &&
    (g.faculty_ids.all (fun fid =>
      (!(decide ((fid, d, s + (off : Int)) ∈ fo))) &&
      (!(decide ((fid, d, s + (off : Int)) ∈ bl)))))))

/-- The candidate enumeration of `_attempt_find_empty_slot`
(lines 289-326): days in order, start periods `1 .. maxEnd - count + 1`,
keeping the candidates that pass the validity check.  `random.shuffle` then
returns one of these, so any slot the oracle returns is in this list. -/
def possibleSlots (bl : List OccEntry) (genes : List Gene) (i : Nat) :
    List (Nat × Int) :=
  match genes[i]? with
  | none => []
  | some g =>
    let so := tempSemOcc genes i
    let fo := tempFacOcc genes i
    let maxEnd : Int := if !g.is_lab then 4 else 6
    (List.range 6).flatMap (fun d =>
      (intRange 1 (maxEnd - g.periods_count + 1)).filterMap (fun s =>
        if slotOk bl g so fo d s then some (d, s) else none))

/-- `_attempt_find_empty_slot` under the identity shuffle: the first valid
candidate, or `none` when no valid slot exists (the `return None, None`). -/
def findEmptySlot (bl : List OccEntry) (genes : List Gene) (i : Nat) :
    Option (Nat × Int) :=
  (possibleSlots bl genes i).head?

/-- The H1 amount `calculate` adds for a placed gene arriving at state
`st` (see `processGene_hard`). -/
def geneH1 (st : CalcState) (g : Gene) : Nat :=
  (scanOcc g.semester_id (occupiedOf g) st.semOcc).1

/-- The H2 amount `calculate` adds for a placed gene arriving at state
`st` (see `processGene_hard`). -/
def geneH2 (st : CalcState) (g : Gene) : Nat :=
  (g.faculty_ids.foldl (fun acc fid =>
    let r := scanOcc fid (occupiedOf g) acc.2
    (acc.1 + r.1, r.2)) (0, st.facOcc)).1

/-- The H3 amount `calculate` adds for a placed gene. -/
def geneH3 (bl : List OccEntry) (g : Gene) : Nat :=
  blockedPen bl g.faculty_ids (occupiedOf g)

/-- The gene used by the C6 witness: an unplaced theory class alone in its
chromosome. -/
def gW : Gene :=
  { semester_id := 0, course_id := 0, faculty_ids := [1], day := none,
    start_period := none, periods_count := 1, is_lab := false }

/-- A lab gene whose two faculty slots name the same faculty — the database
schema does not preclude `faculty_id_1 = faculty_id_2` in a lab mapping. -/
def cexC6 : Gene :=
  { semester_id := 0, course_id := 0, faculty_ids := [7, 7], day := none,
    start_period := none, periods_count := 2, is_lab := true }

theorem list_any_congr_on {α : Type} {p q : α → Bool} :
    ∀ {l : List α}, (∀ x ∈ l, p x = q x) → l.any p = l.any q := by
  intro l
  induction l with
  | nil => intro _; rfl
  | cons a l ih =>
    intro h
    simp only [List.any_cons, h a (by simp), ih (fun x hx => h x (by simp [hx]))]

theorem list_takeWhile_congr_on {α : Type} {p q : α → Bool} :
    ∀ {l : List α}, (∀ x ∈ l, p x = q x) → l.takeWhile p = l.takeWhile q := by
  intro l
  induction l with
  | nil => intro _; rfl
  | cons a l ih =>
    intro h
    simp only [List.takeWhile_cons, h a (by simp)]
    by_cases hq : q a = true
    · simp only [hq, if_true, ih (fun x hx => h x (by simp [hx]))]
    · simp only [Bool.not_eq_true] at hq
      simp [hq]

/-- Closed-form description of the code's H1/H2 collision scan on a
duplicate-free timeslot list: the penalty is 1000 exactly when some
timeslot is already occupied, and the timeslots scanned strictly before
the first hit (all of them when there is no hit) are what gets added. -/
theorem scanOcc_eq (k : Nat) (ts : List (Nat × Int)) (occ : List OccEntry)
    (h : ts.Nodup) :
    scanOcc k ts occ =
      ((if ts.any (fun t => decide ((k, t.1, t.2) ∈ occ)) then 1000 else 0),
       ((ts.takeWhile (fun t => !decide ((k, t.1, t.2) ∈ occ))).reverse.map
          (fun t => (k, t.1, t.2))) ++ occ) := by
  induction ts generalizing occ with
  | nil => simp [scanOcc]
  | cons t ts ih =>
    rcases List.nodup_cons.mp h with ⟨hts, hnd⟩
    by_cases hm : (k, t.1, t.2) ∈ occ
    · simp [scanOcc, hm]
    · have hcong : ∀ x ∈ ts,
          (decide ((k, x.1, x.2) ∈ ((k, t.1, t.2) :: occ)) : Bool) =
            decide ((k, x.1, x.2) ∈ occ) := by
        intro x hx
        have hne : ((k, x.1, x.2) : OccEntry) ≠ (k, t.1, t.2) := by
          intro he
          apply hts
          have h1 : x.1 = t.1 := congrArg (fun e : OccEntry => e.2.1) he
          have h2 : x.2 = t.2 := congrArg (fun e : OccEntry => e.2.2) he
          have : x = t := Prod.ext h1 h2
          exact this ▸ hx
        simp [List.mem_cons, hne]
      have hcong' : ∀ x ∈ ts,
          (!decide ((k, x.1, x.2) ∈ ((k, t.1, t.2) :: occ)) : Bool) =
            !decide ((k, x.1, x.2) ∈ occ) := by
        intro x hx
        rw [hcong x hx]
      have hstep : scanOcc k (t :: ts) occ = scanOcc k ts ((k, t.1, t.2) :: occ) := by
        simp [scanOcc, hm]
      rw [hstep, ih _ hnd]
      rw [list_any_congr_on hcong, list_takeWhile_congr_on hcong']
      have hany : (t :: ts).any (fun t' => decide ((k, t'.1, t'.2) ∈ occ)) =
          ts.any (fun t' => decide ((k, t'.1, t'.2) ∈ occ)) := by
        simp [List.any_cons, hm]
      have htake : (t :: ts).takeWhile (fun t' => !decide ((k, t'.1, t'.2) ∈ occ)) =
          t :: ts.takeWhile (fun t' => !decide ((k, t'.1, t'.2) ∈ occ)) := by
        simp [List.takeWhile_cons, hm]
      rw [hany, htake]
      simp [List.map_append, List.append_assoc]

/-- Claim C1 (amended): in the H1/H2 collision scoring of
`TimetableFitness.calculate`, genes are evaluated in sequence order and each
occupied (day, period) is tested against the resource's occupied set; on the
first hit the 1000 penalty is added once and scanning stops for that
resource; only the timeslots scanned strictly before the first hit (all of
them when there is no hit) are added to the occupied set — the colliding
period and any later periods of that gene are not added. -/
theorem claim_C1 (k : Nat) (ts : List (Nat × Int)) (occ : List OccEntry)
    (h : ts.Nodup) :
    scanOcc k ts occ =
      ((if ts.any (fun t => decide ((k, t.1, t.2) ∈ occ)) then 1000 else 0),
       ((ts.takeWhile (fun t => !decide ((k, t.1, t.2) ∈ occ))).reverse.map
          (fun t => (k, t.1, t.2))) ++ occ) :=
  scanOcc_eq k ts occ h

/-- Witness for C1 at a concrete scan: gene occupying (0,1),(0,2) scanned
against a set already holding (0,2). -/
theorem claim_C1_witness :
    ([((0 : Nat), (1 : Int)), (0, 2)].Nodup) ∧
    scanOcc 0 [((0 : Nat), (1 : Int)), (0, 2)] [(0, 0, 2)] =
      ((if [((0 : Nat), (1 : Int)), (0, 2)].any
            (fun t => decide (((0 : Nat), t.1, t.2) ∈ [((0 : Nat), (0 : Nat), (2 : Int))]))
          then 1000 else 0),
       (([((0 : Nat), (1 : Int)), (0, 2)].takeWhile
            (fun t => !decide (((0 : Nat), t.1, t.2) ∈ [((0 : Nat), (0 : Nat), (2 : Int))]))).reverse.map
          (fun t => ((0 : Nat), t.1, t.2))) ++ [(0, 0, 2)]) :=
  ⟨by decide, claim_C1 0 [((0 : Nat), (1 : Int)), (0, 2)] [(0, 0, 2)] (by decide)⟩

/-- Counterexample for C1 as stated: the lab gene collides at its first
period, scanning stops, and — contrary to the claim — its second period
(day 0, period 2) is never added to the semester's occupied set, so the
third gene placed there incurs no H1 penalty; under the claim's wording it
would.  The two semantics produce observably different totals. -/
theorem claim_C1_counterexample :
    calcPenalties [] [] cexC1 = 1060 ∧
    calcPenaltiesClaim [] [] cexC1 = 2060 ∧
    ((0, 0, 2) ∉ (scanOcc 0 [((0 : Nat), (1 : Int)), (0, 2)] [(0, 0, 1)]).2) := by
  decide

/-- Claim C5: the score of `TimetableFitness.calculate` is the negated total
penalty, hence an integer at most 0, and it is 0 exactly when the chromosome
incurs no hard (H0-H5) and no soft (S1-S5) penalties. -/
theorem claim_C5 (bl pf : List OccEntry) (c : Chrom) :
    score bl pf c = -((hardPen bl pf c : Int) + (softPen bl pf c : Int)) ∧
    score bl pf c ≤ 0 ∧
    (score bl pf c = 0 ↔ hardPen bl pf c = 0 ∧ softPen bl pf c = 0) := by
  unfold score calcPenalties
  push_cast
  omega

/-- Claim C7: every chromosome produced by initialization has each gene on
one of the six working days with `1 ≤ start_period` and `end_period ≤ 6`,
and theory genes additionally have `end_period ≤ 4`.  The hypotheses on
`picks` are the guarantees of `random.choice(self.days)` and of
`random.randint(1, max_start)` over the type-appropriate range. -/
theorem claim_C7 (template : List Gene) (picks : List (Nat × Int)) (c : Chrom)
    (hpick : ∀ p ∈ template.zip picks, p.2.1 < 6 ∧ 1 ≤ p.2.2 ∧
      p.2.2 ≤ (if p.1.is_lab then 6 - p.1.periods_count + 1
               else 4 - p.1.periods_count + 1))
    (hc : createIndividual template picks = some c) :
    ∀ g ∈ c, ∃ d s, g.day = some d ∧ g.start_period = some s ∧
      d < 6 ∧ 1 ≤ s ∧ s + g.periods_count - 1 ≤ 6 ∧
      (g.is_lab = false → s + g.periods_count - 1 ≤ 4) := by
  induction template generalizing picks c with
  | nil =>
    cases picks <;> simp only [createIndividual, Option.some.injEq] at hc <;>
      subst hc <;> intro g hg <;> simp at hg
  | cons g gs ih =>
    cases picks with
    | nil => simp [createIndividual] at hc
    | cons p ps =>
      simp only [createIndividual] at hc
      cases hgr : getRandomTimeslot g.periods_count g.is_lab p.1 p.2 with
      | none => rw [hgr] at hc; exact absurd hc (by simp)
      | some ds =>
        rw [hgr] at hc
        cases hrest : createIndividual gs ps with
        | none => rw [hrest] at hc; exact absurd hc (by simp)
        | some rest =>
          rw [hrest] at hc
          simp only [Option.some.injEq] at hc
          subst hc
          intro x hx
          rcases List.mem_cons.mp hx with hx | hx
          · subst hx
            obtain ⟨hd6, hs1, hsu⟩ := hpick (g, p) (by simp [List.zip_cons_cons])
            unfold getRandomTimeslot at hgr
            by_cases hl : g.is_lab = true
            · rw [hl] at hgr hsu
              simp only [if_pos] at hsu
              by_cases hc6 : 6 - g.periods_count + 1 < 1
              · rw [if_pos hc6] at hgr; cases hgr
              · rw [if_neg hc6] at hgr
                simp only [Option.some.injEq] at hgr
                subst hgr
                refine ⟨p.1, p.2, rfl, rfl, hd6, hs1, ?_, ?_⟩
                · show p.2 + g.periods_count - 1 ≤ 6
                  omega
                · intro hfl
                  have : g.is_lab = false := hfl
                  rw [hl] at this
                  cases this
            · simp only [Bool.not_eq_true] at hl
              rw [hl] at hgr hsu
              simp only [if_neg (by simp : ¬(false = true))] at hsu
              by_cases hc4 : g.periods_count > 4
              · rw [if_pos hc4] at hgr; cases hgr
              · rw [if_neg hc4] at hgr
                rw [if_neg (by omega : ¬(4 - g.periods_count + 1 < 1))] at hgr
                simp only [Option.some.injEq] at hgr
                subst hgr
                refine ⟨p.1, p.2, rfl, rfl, hd6, hs1, ?_, ?_⟩
                · show p.2 + g.periods_count - 1 ≤ 6
                  omega
                · intro hfl
                  show p.2 + g.periods_count - 1 ≤ 4
                  omega
          · exact ih ps rest (fun q hq => hpick q (by simp [List.zip_cons_cons, hq]))
              hrest x hx

/-- Witness for C7: a one-gene theory template initialized with draws
(day 0, start period 1). -/
theorem claim_C7_witness :
    (∀ p ∈ ([{ semester_id := 0, course_id := 0, faculty_ids := [1], day := none,
               start_period := none, periods_count := 1, is_lab := false }] :
             List Gene).zip [((0 : Nat), (1 : Int))],
       p.2.1 < 6 ∧ 1 ≤ p.2.2 ∧
       p.2.2 ≤ (if p.1.is_lab then 6 - p.1.periods_count + 1
                else 4 - p.1.periods_count + 1)) ∧
    (∀ g ∈ ([{ semester_id := 0, course_id := 0, faculty_ids := [1], day := some 0,
               start_period := some 1, periods_count := 1, is_lab := false }] : Chrom),
       ∃ d s, g.day = some d ∧ g.start_period = some s ∧
         d < 6 ∧ 1 ≤ s ∧ s + g.periods_count - 1 ≤ 6 ∧
         (g.is_lab = false → s + g.periods_count - 1 ≤ 4)) :=
  ⟨by decide,
   claim_C7 [{ semester_id := 0, course_id := 0, faculty_ids := [1], day := none,
               start_period := none, periods_count := 1, is_lab := false }]
     [((0 : Nat), (1 : Int))] _ (by decide) (by decide)⟩

theorem foldl_append_eq_flatMap {α β : Type} (f : α → List β) :
    ∀ (l : List α) (init : List β),
      l.foldl (fun acc x => acc ++ f x) init = init ++ l.flatMap f := by
  intro l
  induction l with
  | nil => intro init; simp
  | cons x l ih =>
    intro init
    simp [List.foldl_cons, ih, List.append_assoc]

/-- Claim C8: class derivation yields, per resolvable theory mapping,
exactly `hours_per_week` genes with `periods_count = 1`, `is_lab = false`
and `faculty_ids = [faculty]`; per resolvable lab mapping exactly one gene
with `periods_count = 2`, `is_lab = true` and
`faculty_ids = [faculty_1, faculty_2]` regardless of the course's weekly
hours; and mappings with a missing referenced entity contribute nothing. -/
theorem claim_C8 (data : AllData) :
    get_classes_to_schedule data =
      (data.theory_mappings.flatMap (fun tm =>
        match data.courses.find? (fun co => co.id == tm.course_id) with
        | some co =>
          if tm.faculty_id ∈ data.faculty ∧ tm.semester_id ∈ data.semesters then
            List.replicate co.hours_per_week
              (theoryGene tm.semester_id co.id tm.faculty_id)
          else []
        | none => []))
      ++ (data.lab_mappings.flatMap (fun lm =>
        match data.courses.find? (fun co => co.id == lm.lab_course_id) with
        | some co =>
          if lm.faculty_id_1 ∈ data.faculty ∧ lm.faculty_id_2 ∈ data.faculty ∧
              lm.semester_id ∈ data.semesters then
            [labGene lm.semester_id co.id lm.faculty_id_1 lm.faculty_id_2]
          else []
        | none => [])) := by
  unfold get_classes_to_schedule
  have hbody1 : (fun (acc : List Gene) (tm : TheoryMapping) =>
      match data.courses.find? (fun co => co.id == tm.course_id) with
      | some co =>
        if tm.faculty_id ∈ data.faculty ∧ tm.semester_id ∈ data.semesters then
          acc ++ List.replicate co.hours_per_week
            (theoryGene tm.semester_id co.id tm.faculty_id)
        else acc
      | none => acc) =
      (fun acc tm => acc ++
        match data.courses.find? (fun co => co.id == tm.course_id) with
        | some co =>
          if tm.faculty_id ∈ data.faculty ∧ tm.semester_id ∈ data.semesters then
            List.replicate co.hours_per_week
              (theoryGene tm.semester_id co.id tm.faculty_id)
          else []
        | none => []) := by
    funext acc tm
    cases data.courses.find? (fun co => co.id == tm.course_id) with
    | none => simp
    | some co =>
      by_cases h : tm.faculty_id ∈ data.faculty ∧ tm.semester_id ∈ data.semesters <;>
        simp [h]
  have hbody2 : (fun (acc : List Gene) (lm : LabMapping) =>
      match data.courses.find? (fun co => co.id == lm.lab_course_id) with
      | some co =>
        if lm.faculty_id_1 ∈ data.faculty ∧ lm.faculty_id_2 ∈ data.faculty ∧
            lm.semester_id ∈ data.semesters then
          acc ++ [labGene lm.semester_id co.id lm.faculty_id_1 lm.faculty_id_2]
        else acc
      | none => acc) =
      (fun acc lm => acc ++
        match data.courses.find? (fun co => co.id == lm.lab_course_id) with
        | some co =>
          if lm.faculty_id_1 ∈ data.faculty ∧ lm.faculty_id_2 ∈ data.faculty ∧
              lm.semester_id ∈ data.semesters then
            [labGene lm.semester_id co.id lm.faculty_id_1 lm.faculty_id_2]
          else []
        | none => []) := by
    funext acc lm
    cases data.courses.find? (fun co => co.id == lm.lab_course_id) with
    | none => simp
    | some co =>
      by_cases h : lm.faculty_id_1 ∈ data.faculty ∧ lm.faculty_id_2 ∈ data.faculty ∧
          lm.semester_id ∈ data.semesters <;> simp [h]
  rw [hbody1, hbody2, foldl_append_eq_flatMap, foldl_append_eq_flatMap]
  simp

/-- Claim C9: constructing the search raises exactly when the derived class
list is empty, or there are no semesters, or no faculty; a well-formed
instance (all three non-empty) raises nothing. -/
theorem claim_C9 (cs : List Gene) (data : AllData) :
    (∃ e, gaInit cs data = Except.error e) ↔
      cs = [] ∨ data.semesters = [] ∨ data.faculty = [] := by
  unfold gaInit
  split_ifs with h1 h2 h3 <;>
    simp_all [List.isEmpty_iff]

theorem maxFit_mem (bl pf : List OccEntry) :
    ∀ (l : List Chrom) (best : Chrom), maxFit bl pf best l ∈ best :: l := by
  intro l
  induction l with
  | nil => intro best; simp [maxFit]
  | cons c cs ih =>
    intro best
    simp only [maxFit]
    rcases List.mem_cons.mp (ih (if score bl pf c > score bl pf best then c else best))
      with h | h
    · rw [h]
      by_cases hgt : score bl pf c > score bl pf best <;> simp [hgt]
    · simp [h]

theorem maxFit_ge (bl pf : List OccEntry) :
    ∀ (l : List Chrom) (best : Chrom) (x : Chrom), x ∈ best :: l →
      score bl pf x ≤ score bl pf (maxFit bl pf best l) := by
  intro l
  induction l with
  | nil =>
    intro best x hx
    rcases List.mem_cons.mp hx with h | h
    · rw [h]; exact le_refl _
    · simp at h
  | cons c cs ih =>
    intro best x hx
    simp only [maxFit]
    have hbest : score bl pf best ≤
        score bl pf (if score bl pf c > score bl pf best then c else best) := by
      by_cases hgt : score bl pf c > score bl pf best <;> simp [hgt]
      exact le_of_lt hgt
    have hc : score bl pf c ≤
        score bl pf (if score bl pf c > score bl pf best then c else best) := by
      by_cases hgt : score bl pf c > score bl pf best <;> simp [hgt]
      omega
    rcases List.mem_cons.mp hx with h | h
    · rw [h]
      exact le_trans hbest
        (ih _ _ (List.mem_cons_self _ _))
    · rcases List.mem_cons.mp h with h' | h'
      · rw [h']
        exact le_trans hc (ih _ _ (List.mem_cons_self _ _))
      · exact ih _ x (List.mem_cons_of_mem _ h')

theorem tournament_spec (bl pf : List OccEntry) (pop : List Chrom) (idxs : List Nat)
    (h5 : 5 ≤ pop.length) (hne : idxs ≠ [])
    (hin : ∀ i ∈ idxs, i < pop.length) :
    ∃ w, tournament bl pf pop idxs = some w ∧ w ∈ pop ∧
      ∀ i ∈ idxs, ∀ c, pop[i]? = some c → score bl pf c ≤ score bl pf w := by
  cases idxs with
  | nil => exact absurd rfl hne
  | cons i rest =>
    have hi : i < pop.length := hin i (by simp)
    have hgeti : pop[i]? = some pop[i] := List.getElem?_eq_getElem hi
    unfold tournament randomSample
    rw [if_pos h5]
    simp only [List.filterMap_cons, hgeti]
    refine ⟨maxFit bl pf pop[i] (rest.filterMap (fun j => pop[j]?)), rfl, ?_, ?_⟩
    · have hmem := maxFit_mem bl pf (rest.filterMap (fun j => pop[j]?)) pop[i]
      rcases List.mem_cons.mp hmem with h | h
      · rw [h]; exact List.getElem_mem hi
      · rcases List.mem_filterMap.mp h with ⟨j, _, hj⟩
        exact List.getElem?_mem hj
    · intro j hj c hc
      apply maxFit_ge
      rcases List.mem_cons.mp hj with h | h
      · subst h
        rw [hgeti] at hc
        simp only [Option.some.injEq] at hc
        rw [← hc]
        exact List.mem_cons_self _ _
      · exact List.mem_cons_of_mem _ (List.mem_filterMap.mpr ⟨j, h, hc⟩)

theorem selection_spec (bl pf : List OccEntry) (pop : List Chrom)
    (h5 : 5 ≤ pop.length) :
    ∀ samples : List (List Nat),
      (∀ idxs ∈ samples, idxs ≠ [] ∧ ∀ i ∈ idxs, i < pop.length) →
      ∃ parents, selection bl pf pop samples = some parents ∧
        parents.length = samples.length ∧
        List.Forall₂ (fun (idxs : List Nat) (w : Chrom) => w ∈ pop ∧
          ∀ i ∈ idxs, ∀ c, pop[i]? = some c → score bl pf c ≤ score bl pf w)
          samples parents := by
  intro samples
  induction samples with
  | nil => intro _; exact ⟨[], rfl, rfl, List.Forall₂.nil⟩
  | cons idxs rest ih =>
    intro h
    obtain ⟨hne, hin⟩ := h idxs (by simp)
    obtain ⟨w, hw, hwmem, hwge⟩ := tournament_spec bl pf pop idxs h5 hne hin
    obtain ⟨ws, hws, hlen, hfa⟩ := ih (fun q hq => h q (by simp [hq]))
    refine ⟨w :: ws, ?_, by simp [hlen], List.Forall₂.cons ⟨hwmem, hwge⟩ hfa⟩
    simp only [selection, hw, hws]

/-- Claim C3 (amended): tournament selection produces one parent per
tournament (`population_size` of them when `run` calls it), and each parent
is the highest-scoring chromosome among `tournament_size = 5` competitors
sampled uniformly WITHOUT replacement — `random.sample` draws 5 distinct
positions — from the current population. -/
theorem claim_C3 (bl pf : List OccEntry) (pop : List Chrom)
    (samples : List (List Nat)) (h5 : 5 ≤ pop.length)
    (hs : ∀ idxs ∈ samples, idxs.length = 5 ∧ idxs.Nodup ∧
      ∀ i ∈ idxs, i < pop.length) :
    ∃ parents, selection bl pf pop samples = some parents ∧
      parents.length = samples.length ∧
      List.Forall₂ (fun (idxs : List Nat) (w : Chrom) => w ∈ pop ∧
        ∀ i ∈ idxs, ∀ c, pop[i]? = some c → score bl pf c ≤ score bl pf w)
        samples parents := by
  apply selection_spec bl pf pop h5
  intro idxs hidxs
  obtain ⟨hlen, _, hin⟩ := hs idxs hidxs
  refine ⟨?_, hin⟩
  intro h
  rw [h] at hlen
  cases hlen

/-- Witness for C3: one tournament drawing positions [0, 1, 2, 3, 4]. -/
theorem claim_C3_witness :
    (5 ≤ pop5.length ∧
     ∀ idxs ∈ [[0, 1, 2, 3, 4]], idxs.length = 5 ∧ idxs.Nodup ∧
       ∀ i ∈ idxs, i < pop5.length) ∧
    (∃ parents, selection [] [] pop5 [[0, 1, 2, 3, 4]] = some parents ∧
      parents.length = [[0, 1, 2, 3, 4]].length ∧
      List.Forall₂ (fun (idxs : List Nat) (w : Chrom) => w ∈ pop5 ∧
        ∀ i ∈ idxs, ∀ c, pop5[i]? = some c → score [] [] c ≤ score [] [] w)
        [[0, 1, 2, 3, 4]] parents) :=
  ⟨⟨by decide, by decide⟩,
   claim_C3 [] [] pop5 [[0, 1, 2, 3, 4]] (by decide) (by decide)⟩

/-- Every draw that `random.sample(pop, 5)` can actually produce over the
5-element population `pop5` — 5 distinct in-range positions — makes the
tournament return the population's unique fittest chromosome, because such
a draw necessarily covers every position. -/
theorem tournament_pop5_nodup (idxs : List Nat) (hlen : idxs.length = 5)
    (hnd : idxs.Nodup) (hin : ∀ i ∈ idxs, i < 5) :
    tournament [] [] pop5 idxs = some (List.replicate 1 uGene) := by
  obtain ⟨w, hw, hwmem, hge⟩ := tournament_spec [] [] pop5 idxs (by decide)
    (by intro h; rw [h] at hlen; cases hlen)
    (by intro i hi; have := hin i hi; simpa [pop5] using this)
  have hsub : idxs.toFinset ⊆ Finset.range 5 := by
    intro j hj
    exact Finset.mem_range.mpr (hin j (List.mem_toFinset.mp hj))
  have hcard : (Finset.range 5).card ≤ idxs.toFinset.card := by
    rw [List.toFinset_card_of_nodup hnd, hlen, Finset.card_range]
  have heq := Finset.eq_of_subset_of_card_le hsub hcard
  have h0 : (0 : Nat) ∈ idxs := by
    have : (0 : Nat) ∈ idxs.toFinset := by
      rw [heq]; exact Finset.mem_range.mpr (by omega)
    exact List.mem_toFinset.mp this
  have hbest := hge 0 h0 (List.replicate 1 uGene) (by decide)
  have huniq : ∀ x ∈ pop5,
      score [] [] (List.replicate 1 uGene) ≤ score [] [] x →
      x = List.replicate 1 uGene := by decide
  rw [hw, huniq w hwmem hbest]

/-- Counterexample for C3 as stated: over `pop5`, every without-replacement
draw of 5 positions (the only outcomes `random.sample` can produce — the
arrangements of {0,...,4}, see also `tournament_pop5_nodup`) makes the
tournament return the population's unique fittest chromosome, whereas the
with-replacement draw [1, 1, 1, 1, 1] that the claim permits would return a
strictly less fit one.  The claim's sampling model therefore does not
describe the code. -/
theorem claim_C3_counterexample :
    tournament [] [] pop5 [1, 1, 1, 1, 1] = some (List.replicate 2 uGene) ∧
    ((permsOf [0, 1, 2, 3, 4]).all
      (fun s => tournament [] [] pop5 s ==
        some (List.replicate 1 uGene))) = true ∧
    (List.replicate 2 uGene : Chrom) ≠ List.replicate 1 uGene := by
  refine ⟨by decide, by decide, by decide⟩

/-- Claim C10: when the population has fewer than 5 chromosomes and there is
at least one tournament to run (in `run` there are `population_size ≥ 1`
tournaments over a population of exactly that size), `random.sample(pop, 5)`
raises, selection fails, and `run` cannot complete the generation; with at
least 5 chromosomes (and in-range draws) selection succeeds, so `run`
proceeds past selection exactly when `population_size ≥ 5`. -/
theorem claim_C10 (bl pf : List OccEntry) (pop : List Chrom)
    (samples : List (List Nat)) (hne : samples ≠ []) :
    (pop.length < 5 → selection bl pf pop samples = none) ∧
    (5 ≤ pop.length →
      (∀ idxs ∈ samples, idxs ≠ [] ∧ ∀ i ∈ idxs, i < pop.length) →
      ∃ parents, selection bl pf pop samples = some parents) := by
  constructor
  · intro hlt
    cases samples with
    | nil => exact absurd rfl hne
    | cons idxs rest =>
      have ht : tournament bl pf pop idxs = none := by
        unfold tournament randomSample
        rw [if_neg (by omega : ¬ 5 ≤ pop.length)]
      simp [selection, ht]
  · intro h5 hwf
    obtain ⟨parents, hp, _, _⟩ := selection_spec bl pf pop h5 samples hwf
    exact ⟨parents, hp⟩

/-- Witness for C10: a 2-chromosome population with one tournament fails. -/
theorem claim_C10_witness :
    ([[0]] ≠ ([] : List (List Nat))) ∧
    ((List.replicate 2 (List.replicate 1 uGene)).length < 5 →
      selection [] [] (List.replicate 2 (List.replicate 1 uGene)) [[0]] = none) ∧
    (5 ≤ (List.replicate 2 (List.replicate 1 uGene)).length →
      (∀ idxs ∈ [[0]], idxs ≠ [] ∧
        ∀ i ∈ idxs, i < (List.replicate 2 (List.replicate 1 uGene)).length) →
      ∃ parents,
        selection [] [] (List.replicate 2 (List.replicate 1 uGene)) [[0]] =
          some parents) :=
  ⟨by decide,
   claim_C10 [] [] (List.replicate 2 (List.replicate 1 uGene)) [[0]] (by decide)⟩

theorem crossMixFrom_length (k L : Nat) :
    ∀ (gs other : List Gene) (j : Nat),
      (crossMixFrom k L j gs other).length = gs.length := by
  intro gs
  induction gs with
  | nil => intro other j; rfl
  | cons g gs ih => intro other j; simp [crossMixFrom, ih other (j + 1)]

theorem crossMixFrom_getElem (k L : Nat) :
    ∀ (gs other : List Gene) (j i : Nat),
      (crossMixFrom k L j gs other)[i]? =
        (gs[i]?).map (fun g =>
          if k ≤ j + i ∧ j + i < L then
            match other[j + i]? with
            | some o => { g with day := o.day, start_period := o.start_period }
            | none => g
          else g) := by
  intro gs
  induction gs with
  | nil => intro other j i; simp [crossMixFrom]
  | cons g gs ih =>
    intro other j i
    cases i with
    | zero => simp [crossMixFrom]
    | succ i =>
      simp only [crossMixFrom, List.getElem?_cons_succ]
      rw [ih other (j + 1) i]
      simp only [show j + 1 + i = j + (i + 1) from by omega]

/-- Claim C4 (amended): over a template of `L ≥ 2` genes, crossover is
total: when the recombination branch is drawn it uses a cut `k ∈ [1, L-1]`
and yields two children, each keeping its own parent's genes before `k` and
taking the (day, start_period) of the other parent's gene from `k` on; when
the branch is not drawn it yields the unchanged parent copies.  For `L = 1`
the claim fails: drawing the recombination branch makes `randint(1, 0)`
raise, see the counterexample. -/
theorem claim_C4 (L k : Nat) (p1 p2 : Chrom) (hL : 2 ≤ L)
    (h1 : p1.length = L) (h2 : p2.length = L) (hk1 : 1 ≤ k) (hk2 : k ≤ L - 1) :
    ∃ c1 c2, crossover L true k p1 p2 = some (c1, c2) ∧
      c1.length = L ∧ c2.length = L ∧
      (∀ i, i < k → c1[i]? = p1[i]? ∧ c2[i]? = p2[i]?) ∧
      (∀ i, k ≤ i → i < L → ∀ g o, p1[i]? = some g → p2[i]? = some o →
        c1[i]? = some { g with day := o.day, start_period := o.start_period } ∧
        c2[i]? = some { o with day := g.day, start_period := g.start_period }) ∧
      crossover L false k p1 p2 = some (p1, p2) := by
  refine ⟨crossMix k L p1 p2, crossMix k L p2 p1, ?_, ?_, ?_, ?_, ?_, ?_⟩
  · unfold crossover
    rw [if_pos rfl, if_neg (by omega : ¬ L - 1 < 1)]
  · rw [crossMix, crossMixFrom_length, h1]
  · rw [crossMix, crossMixFrom_length, h2]
  · intro i hik
    constructor
    · rw [crossMix, crossMixFrom_getElem]
      cases hp : p1[i]? with
      | none => rfl
      | some g =>
        simp only [Option.map_some']
        rw [if_neg (by omega : ¬ (k ≤ 0 + i ∧ 0 + i < L))]
    · rw [crossMix, crossMixFrom_getElem]
      cases hp : p2[i]? with
      | none => rfl
      | some g =>
        simp only [Option.map_some']
        rw [if_neg (by omega : ¬ (k ≤ 0 + i ∧ 0 + i < L))]
  · intro i hki hiL g o hg ho
    have hcond : k ≤ 0 + i ∧ 0 + i < L := by omega
    have h0i : (0 : Nat) + i = i := by omega
    constructor
    · rw [crossMix, crossMixFrom_getElem, hg]
      simp only [Option.map_some']
      rw [if_pos hcond, h0i, ho]
    · rw [crossMix, crossMixFrom_getElem, ho]
      simp only [Option.map_some']
      rw [if_pos hcond, h0i, hg]
  · unfold crossover
    rw [if_neg (by simp : ¬ false = true)]

/-- Counterexample for C4 as stated: with a single-gene template (L = 1),
drawing the recombination branch makes `random.randint(1, 0)` raise a
`ValueError`, so crossover fails — contrary to the claim that it is total
for every `L ≥ 1` and in particular never fails when `L = 1`. -/
theorem claim_C4_counterexample :
    crossover 1 true 1 [uGene] [uGene] = none := by decide

/-- Witness for C4: two 2-gene parents recombined at the cut k = 1. -/
theorem claim_C4_witness :
    (2 ≤ 2 ∧ ([gA, gA] : Chrom).length = 2 ∧ ([gB, gB] : Chrom).length = 2 ∧
      1 ≤ 1 ∧ 1 ≤ 2 - 1) ∧
    (∃ c1 c2, crossover 2 true 1 [gA, gA] [gB, gB] = some (c1, c2) ∧
      c1.length = 2 ∧ c2.length = 2 ∧
      (∀ i, i < 1 → c1[i]? = ([gA, gA] : Chrom)[i]? ∧
        c2[i]? = ([gB, gB] : Chrom)[i]?) ∧
      (∀ i, 1 ≤ i → i < 2 → ∀ g o,
        ([gA, gA] : Chrom)[i]? = some g → ([gB, gB] : Chrom)[i]? = some o →
        c1[i]? = some { g with day := o.day, start_period := o.start_period } ∧
        c2[i]? = some { o with day := g.day, start_period := g.start_period }) ∧
      crossover 2 false 1 [gA, gA] [gB, gB] = some ([gA, gA], [gB, gB])) :=
  ⟨by decide,
   claim_C4 2 1 [gA, gA] [gB, gB] (by decide) (by decide) (by decide)
     (by decide) (by decide)⟩

theorem popBest_spec (bl pf : List OccEntry) (pop : List Chrom) (b : Chrom)
    (h : popBest bl pf pop = some b) :
    b ∈ pop ∧ ∀ c ∈ pop, score bl pf c ≤ score bl pf b := by
  cases pop with
  | nil => cases h
  | cons c cs =>
    simp only [popBest, Option.some.injEq] at h
    subst h
    exact ⟨maxFit_mem bl pf cs c, fun x hx => maxFit_ge bl pf cs c x hx⟩

theorem score_nonpos (bl pf : List OccEntry) (c : Chrom) : score bl pf c ≤ 0 := by
  unfold score
  omega

theorem gaLoop_spec (bl pf : List OccEntry)
    (reproduce : Nat → List Chrom → List Chrom) :
    ∀ (r t : Nat) (pop : List Chrom) (best res : Chrom),
      gaLoop bl pf reproduce t r pop best = some res →
      score bl pf best ≤ score bl pf res ∧
      ∀ k, k < r → ∀ c ∈ popsFrom reproduce t pop k,
        score bl pf c ≤ score bl pf res := by
  intro r
  induction r with
  | zero =>
    intro t pop best res h
    simp only [gaLoop, Option.some.injEq] at h
    subst h
    exact ⟨le_refl _, fun k hk => absurd hk (by omega)⟩
  | succ r ih =>
    intro t pop best res h
    simp only [gaLoop] at h
    cases hpb : popBest bl pf pop with
    | none => rw [hpb] at h; cases h
    | some cur =>
      rw [hpb] at h
      obtain ⟨hcmem, hcmax⟩ := popBest_spec bl pf pop cur hpb
      simp only at h
      by_cases hgt : score bl pf cur > score bl pf best
      · rw [if_pos hgt] at h
        by_cases hstop : 0 ≤ score bl pf cur
        · rw [if_pos hstop] at h
          simp only [Option.some.injEq] at h
          subst h
          refine ⟨le_of_lt hgt, ?_⟩
          intro k hk c hc
          have := score_nonpos bl pf c
          omega
        · rw [if_neg hstop] at h
          obtain ⟨h1, h2⟩ := ih (t + 1) (reproduce t pop) cur res h
          refine ⟨le_trans (le_of_lt hgt) h1, ?_⟩
          intro k hk c hc
          cases k with
          | zero => exact le_trans (hcmax c hc) h1
          | succ k => exact h2 k (by omega) c hc
      · rw [if_neg hgt] at h
        by_cases hstop : 0 ≤ score bl pf best
        · rw [if_pos hstop] at h
          simp only [Option.some.injEq] at h
          subst h
          refine ⟨le_refl _, ?_⟩
          intro k hk c hc
          have := score_nonpos bl pf c
          omega
        · rw [if_neg hstop] at h
          obtain ⟨h1, h2⟩ := ih (t + 1) (reproduce t pop) best res h
          refine ⟨h1, ?_⟩
          intro k hk c hc
          cases k with
          | zero => exact le_trans (hcmax c hc) (le_trans (by omega) h1)
          | succ k => exact h2 k (by omega) c hc

/-- Claim C2 (amended): the chromosome `run` returns scores at least as
high as every chromosome of the initial population and of every population
standing at the start of an iteration of the generation loop.  The children
bred in the final generation replace the population after the last
best-seen comparison and the loop then exits, so they are never compared —
the claim's "including the final generation's children" fails, see the
counterexample. -/
theorem claim_C2 (bl pf : List OccEntry)
    (reproduce : Nat → List Chrom → List Chrom) (gens : Nat)
    (init : List Chrom) (res : Chrom)
    (h : gaRun bl pf reproduce gens init = some res) :
    (∀ c ∈ init, score bl pf c ≤ score bl pf res) ∧
    (∀ k, k < gens → ∀ c ∈ popsFrom reproduce 0 init k,
      score bl pf c ≤ score bl pf res) := by
  unfold gaRun at h
  cases hpb : popBest bl pf init with
  | none => rw [hpb] at h; cases h
  | some b0 =>
    rw [hpb] at h
    obtain ⟨hb0mem, hb0max⟩ := popBest_spec bl pf init b0 hpb
    obtain ⟨h1, h2⟩ := gaLoop_spec bl pf reproduce gens 0 init b0 res h
    exact ⟨fun c hc => le_trans (hb0max c hc) h1, h2⟩

/-- Counterexample for C2 as stated: one generation over an initial
population of five copies of `cBad`; reproduction breeds five copies of the
strictly fitter `cGood` (which `run` scores at lines 442-443), but the loop
then exits without comparing them, and `run` returns `cBad` — so the
returned chromosome is not the best one scored during the run. -/
theorem claim_C2_counterexample :
    gaRun [] [] (fun _ _ => List.replicate 5 cGood) 1 (List.replicate 5 cBad) =
      some cBad ∧
    cGood ∈ popsFrom (fun _ _ => List.replicate 5 cGood) 0
      (List.replicate 5 cBad) 1 ∧
    score [] [] cBad < score [] [] cGood := by
  refine ⟨by decide, by decide, by decide⟩

/-- Witness for C2: a zero-generation run over the one-element population
[cGood] returns cGood. -/
theorem claim_C2_witness :
    (gaRun [] [] (fun _ _ => [cGood]) 0 [cGood] = some cGood) ∧
    ((∀ c ∈ [cGood], score [] [] c ≤ score [] [] cGood) ∧
     (∀ k, k < 0 → ∀ c ∈ popsFrom (fun _ _ => [cGood]) 0 [cGood] k,
       score [] [] c ≤ score [] [] cGood)) :=
  ⟨by decide, claim_C2 [] [] (fun _ _ => [cGood]) 0 [cGood] cGood (by decide)⟩

/-- The hard-penalty increment of `calculate` for a placed gene decomposes
into the named H1/H2/H3 contributions plus the H4/H5 shape penalties. -/
theorem processGene_hard (bl pf : List OccEntry) (st : CalcState) (g : Gene)
    (d : Nat) (s : Int) (hd : g.day = some d) (hs : g.start_period = some s) :
    (processGene bl pf st g).hard =
      st.hard + geneH1 st g + geneH2 st g + geneH3 bl g + shapePen g s := by
  have hocc : occupiedOf g = geneTimeslots d s g.periods_count := by
    unfold occupiedOf
    rw [hd, hs]
  unfold processGene processGeneWith geneH1 geneH2 geneH3
  rw [hd, hs, hocc]

theorem geneTimeslots_nodup (d : Nat) (s : Int) (c : Int) :
    (geneTimeslots d s c).Nodup := by
  unfold geneTimeslots
  have hinj : Function.Injective (fun i : Nat => ((d, s + i) : Nat × Int)) := by
    intro a b hab
    have h2 : s + (a : Int) = s + (b : Int) := congrArg Prod.snd hab
    omega
  exact (List.nodup_range c.toNat).map hinj

/-- Entries of the post-scan occupancy come from the previous occupancy or
from the scanned timeslots keyed by `k`. -/
theorem scanOcc_sub (k : Nat) :
    ∀ (ts : List (Nat × Int)) (occ : List OccEntry) (e : OccEntry),
      e ∈ (scanOcc k ts occ).2 → e ∈ occ ∨ ∃ t ∈ ts, e = (k, t.1, t.2) := by
  intro ts
  induction ts with
  | nil => intro occ e he; exact Or.inl he
  | cons t ts ih =>
    intro occ e he
    by_cases hm : (k, t.1, t.2) ∈ occ
    · simp only [scanOcc, if_pos hm] at he
      exact Or.inl he
    · simp only [scanOcc, if_neg hm] at he
      rcases ih _ e he with h | ⟨t', ht', he'⟩
      · rcases List.mem_cons.mp h with h' | h'
        · exact Or.inr ⟨t, by simp, h'⟩
        · exact Or.inl h'
      · exact Or.inr ⟨t', by simp [ht'], he'⟩

/-- A scan over duplicate-free timeslots none of which is occupied adds no
penalty, and the resulting occupancy is the union of the old one with the
scanned timeslots keyed by `k`. -/
theorem scanOcc_no_hit (k : Nat) :
    ∀ (ts : List (Nat × Int)) (occ : List OccEntry),
      (∀ t ∈ ts, (k, t.1, t.2) ∉ occ) → ts.Nodup →
      (scanOcc k ts occ).1 = 0 ∧
      ∀ e, e ∈ (scanOcc k ts occ).2 ↔ (e ∈ occ ∨ ∃ t ∈ ts, e = (k, t.1, t.2)) := by
  intro ts
  induction ts with
  | nil =>
    intro occ _ _
    refine ⟨rfl, ?_⟩
    intro e
    simp [scanOcc]
  | cons t ts ih =>
    intro occ hnin hnd
    rcases List.nodup_cons.mp hnd with ⟨hts, hnd'⟩
    have hm : (k, t.1, t.2) ∉ occ := hnin t (by simp)
    simp only [scanOcc, if_neg hm]
    have hnin' : ∀ t' ∈ ts, (k, t'.1, t'.2) ∉ ((k, t.1, t.2) :: occ) := by
      intro t' ht' hmem
      rcases List.mem_cons.mp hmem with h | h
      · have ht1 : t'.1 = t.1 := congrArg (fun e : OccEntry => e.2.1) h
        have ht2 : t'.2 = t.2 := congrArg (fun e : OccEntry => e.2.2) h
        exact hts (Prod.ext ht1 ht2 ▸ ht')
      · exact hnin t' (by simp [ht']) h
    obtain ⟨hp, hs⟩ := ih ((k, t.1, t.2) :: occ) hnin' hnd'
    refine ⟨hp, ?_⟩
    intro e
    rw [hs e]
    constructor
    · rintro (h | h)
      · rcases List.mem_cons.mp h with h' | h'
        · exact Or.inr ⟨t, by simp, h'⟩
        · exact Or.inl h'
      · rcases h with ⟨t', ht', he⟩
        exact Or.inr ⟨t', by simp [ht'], he⟩
    · rintro (h | h)
      · exact Or.inl (by simp [h])
      · rcases h with ⟨t', ht', he⟩
        rcases List.mem_cons.mp ht' with h' | h'
        · subst h'
          exact Or.inl (by simp [he])
        · exact Or.inr ⟨t', h', he⟩

/-- Entries of the faculty-occupancy fold come from the previous occupancy
or from the scanned timeslots keyed by one of the gene's faculties. -/
theorem facFold_sub (ts : List (Nat × Int)) :
    ∀ (fids : List Nat) (acc : Nat × List OccEntry) (e : OccEntry),
      e ∈ (fids.foldl (fun acc fid =>
        let r := scanOcc fid ts acc.2
        (acc.1 + r.1, r.2)) acc).2 →
      e ∈ acc.2 ∨ ∃ fid ∈ fids, ∃ t ∈ ts, e = (fid, t.1, t.2) := by
  intro fids
  induction fids with
  | nil => intro acc e he; exact Or.inl he
  | cons fid fids ih =>
    intro acc e he
    simp only [List.foldl_cons] at he
    rcases ih _ e he with h | ⟨fid', hfid', t, ht, he'⟩
    · rcases scanOcc_sub fid ts acc.2 e h with h' | ⟨t, ht, he'⟩
      · exact Or.inl h'
      · exact Or.inr ⟨fid, by simp, t, ht, he'⟩
    · exact Or.inr ⟨fid', by simp [hfid'], t, ht, he'⟩

/-- The faculty collision fold adds no penalty when the faculty list is
duplicate-free and no faculty of the gene occupies any scanned timeslot. -/
theorem facFold_no_hit (ts : List (Nat × Int)) (hnd : ts.Nodup) :
    ∀ (fids : List Nat) (occ : List OccEntry) (pen : Nat),
      fids.Nodup →
      (∀ fid ∈ fids, ∀ t ∈ ts, (fid, t.1, t.2) ∉ occ) →
      (fids.foldl (fun acc fid =>
        let r := scanOcc fid ts acc.2
        (acc.1 + r.1, r.2)) (pen, occ)).1 = pen := by
  intro fids
  induction fids with
  | nil => intro occ pen _ _; rfl
  | cons fid fids ih =>
    intro occ pen hdup hnin
    rcases List.nodup_cons.mp hdup with ⟨hfid, hdup'⟩
    obtain ⟨hp, hset⟩ := scanOcc_no_hit fid ts occ (hnin fid (by simp)) hnd
    have hnin' : ∀ fid' ∈ fids, ∀ t ∈ ts,
        (fid', t.1, t.2) ∉ (scanOcc fid ts occ).2 := by
      intro fid' hfid' t ht hmem
      rcases (hset _).mp hmem with h | ⟨t', _, he⟩
      · exact hnin fid' (by simp [hfid']) t ht h
      · have : fid' = fid := congrArg (fun e : OccEntry => e.1) he
        exact hfid (this ▸ hfid')
    simp only [List.foldl_cons]
    show (List.foldl (fun acc fid =>
        let r := scanOcc fid ts acc.2
        (acc.1 + r.1, r.2))
      (pen + (scanOcc fid ts occ).1, (scanOcc fid ts occ).2) fids).1 = pen
    rw [hp, Nat.add_zero]
    exact ih (scanOcc fid ts occ).2 pen hdup' hnin'

/-- Every entry of the semester occupancy accumulated by `calculate` comes
from an occupied timeslot of one of the processed genes. -/
theorem foldl_semOcc_sound (bl pf : List OccEntry) :
    ∀ (gs : List Gene) (st : CalcState) (e : OccEntry),
      e ∈ (gs.foldl (processGene bl pf) st).semOcc →
      e ∈ st.semOcc ∨
        ∃ g ∈ gs, e.1 = g.semester_id ∧ (e.2.1, e.2.2) ∈ occupiedOf g := by
  intro gs
  induction gs with
  | nil => intro st e he; exact Or.inl he
  | cons g gs ih =>
    intro st e he
    rw [List.foldl_cons] at he
    rcases ih _ e he with h | ⟨g', hg', he1, he2⟩
    · cases hd : g.day with
      | none =>
        unfold processGene processGeneWith at h
        rw [hd] at h
        exact Or.inl h
      | some d =>
        cases hs : g.start_period with
        | none =>
          unfold processGene processGeneWith at h
          rw [hd, hs] at h
          exact Or.inl h
        | some s =>
          unfold processGene processGeneWith at h
          rw [hd, hs] at h
          rcases scanOcc_sub g.semester_id (geneTimeslots d s g.periods_count)
              st.semOcc e h with h' | ⟨t, ht, he'⟩
          · exact Or.inl h'
          · refine Or.inr ⟨g, by simp, ?_, ?_⟩
            · rw [he']
            · have hocc : occupiedOf g = geneTimeslots d s g.periods_count := by
                unfold occupiedOf
                rw [hd, hs]
              rw [hocc, he']
              simpa using ht
    · exact Or.inr ⟨g', by simp [hg'], he1, he2⟩

/-- Every entry of the faculty occupancy accumulated by `calculate` comes
from an occupied timeslot of one of the processed genes, keyed by one of
that gene's faculties. -/
theorem foldl_facOcc_sound (bl pf : List OccEntry) :
    ∀ (gs : List Gene) (st : CalcState) (e : OccEntry),
      e ∈ (gs.foldl (processGene bl pf) st).facOcc →
      e ∈ st.facOcc ∨
        ∃ g ∈ gs, e.1 ∈ g.faculty_ids ∧ (e.2.1, e.2.2) ∈ occupiedOf g := by
  intro gs
  induction gs with
  | nil => intro st e he; exact Or.inl he
  | cons g gs ih =>
    intro st e he
    rw [List.foldl_cons] at he
    rcases ih _ e he with h | ⟨g', hg', he1, he2⟩
    · cases hd : g.day with
      | none =>
        unfold processGene processGeneWith at h
        rw [hd] at h
        exact Or.inl h
      | some d =>
        cases hs : g.start_period with
        | none =>
          unfold processGene processGeneWith at h
          rw [hd, hs] at h
          exact Or.inl h
        | some s =>
          unfold processGene processGeneWith at h
          rw [hd, hs] at h
          rcases facFold_sub (geneTimeslots d s g.periods_count) g.faculty_ids
              (0, st.facOcc) e h with h' | ⟨fid, hfid, t, ht, he'⟩
          · exact Or.inl h'
          · refine Or.inr ⟨g, by simp, ?_, ?_⟩
            · rw [he']; exact hfid
            · have hocc : occupiedOf g = geneTimeslots d s g.periods_count := by
                unfold occupiedOf
                rw [hd, hs]
              rw [hocc, he']
              simpa using ht
    · exact Or.inr ⟨g', by simp [hg'], he1, he2⟩

theorem take_mem_eraseIdx {α : Type} :
    ∀ (l : List α) (i : Nat) (x : α), x ∈ l.take i → x ∈ l.eraseIdx i := by
  intro l
  induction l with
  | nil => intro i x hx; simp at hx
  | cons a l ih =>
    intro i x hx
    cases i with
    | zero => simp at hx
    | succ i =>
      rw [List.take_succ_cons] at hx
      rw [List.eraseIdx_cons_succ]
      rcases List.mem_cons.mp hx with h | h
      · exact h ▸ List.mem_cons_self _ _
      · exact List.mem_cons_of_mem _ (ih i x h)

theorem take_set_self {α : Type} :
    ∀ (l : List α) (i : Nat) (x : α), (l.set i x).take i = l.take i := by
  intro l
  induction l with
  | nil => intro i x; simp
  | cons a l ih =>
    intro i x
    cases i with
    | zero => simp
    | succ i =>
      rw [List.set_cons_succ, List.take_succ_cons, List.take_succ_cons, ih]

theorem mem_tempSemOcc (genes : List Gene) (i : Nat) (g' : Gene) (t : Nat × Int)
    (hg' : g' ∈ genes.eraseIdx i) (ht : t ∈ occupiedOf g') :
    (g'.semester_id, t.1, t.2) ∈ tempSemOcc genes i := by
  unfold tempSemOcc
  exact List.mem_flatMap.mpr ⟨g', hg', List.mem_map.mpr ⟨t, ht, rfl⟩⟩

theorem mem_tempFacOcc (genes : List Gene) (i : Nat) (g' : Gene) (fid : Nat)
    (t : Nat × Int) (hg' : g' ∈ genes.eraseIdx i) (hfid : fid ∈ g'.faculty_ids)
    (ht : t ∈ occupiedOf g') :
    (fid, t.1, t.2) ∈ tempFacOcc genes i := by
  unfold tempFacOcc
  exact List.mem_flatMap.mpr
    ⟨g', hg', List.mem_flatMap.mpr ⟨fid, hfid, List.mem_map.mpr ⟨t, ht, rfl⟩⟩⟩

/-- Any slot in the oracle's candidate list passes the validity check. -/
theorem possibleSlots_ok (bl : List OccEntry) (genes : List Gene) (i : Nat)
    (g : Gene) (hg : genes[i]? = some g) (d : Nat) (s : Int)
    (hmem : (d, s) ∈ possibleSlots bl genes i) :
    slotOk bl g (tempSemOcc genes i) (tempFacOcc genes i) d s = true := by
  unfold possibleSlots at hmem
  rw [hg] at hmem
  simp only at hmem
  rcases List.mem_flatMap.mp hmem with ⟨d', _, hmem'⟩
  rcases List.mem_filterMap.mp hmem' with ⟨s', _, hok⟩
  cases hslot : slotOk bl g (tempSemOcc genes i) (tempFacOcc genes i) d' s' with
  | false =>
    rw [hslot] at hok
    simp at hok
  | true =>
    rw [hslot] at hok
    simp only [if_pos rfl, Option.some.injEq, Prod.mk.injEq] at hok
    obtain ⟨rfl, rfl⟩ := hok
    exact hslot

/-- What passing the validity check means, per occupied timeslot of the
candidate placement. -/
theorem slotOk_spec (bl : List OccEntry) (g : Gene) (so fo : List OccEntry)
    (d : Nat) (s : Int) (h : slotOk bl g so fo d s = true) :
    ∀ t ∈ geneTimeslots d s g.periods_count,
      (g.semester_id, t.1, t.2) ∉ so ∧
      ∀ fid ∈ g.faculty_ids, (fid, t.1, t.2) ∉ fo ∧ (fid, t.1, t.2) ∉ bl := by
  intro t ht
  unfold geneTimeslots at ht
  rcases List.mem_map.mp ht with ⟨off, hoff, rfl⟩
  unfold slotOk at h
  simp only [Bool.and_eq_true, List.all_eq_true, Bool.not_eq_true',
    decide_eq_false_iff_not] at h
  obtain ⟨-, hall⟩ := h
  obtain ⟨hsem, hfac⟩ := hall off hoff
  refine ⟨hsem, ?_⟩
  intro fid hfid
  exact hfac fid hfid

/-- Claim C6 (amended): when `_attempt_find_empty_slot` returns a placement
for gene `i` of a chromosome — equivalently, a member of its candidate list
`possibleSlots` — and that gene's faculty list is duplicate-free, then
after assigning the placement, scoring the modified chromosome charges the
gene zero H1 (semester collision), zero H2 (faculty collision) and zero H3
(blocked slot): `geneH1`/`geneH2`/`geneH3` are exactly what `calculate`
adds for this gene (see `processGene_hard`), evaluated at the state
accumulated over the genes before it.  For a lab gene listing the same
faculty twice the H2 part fails, see the counterexample. -/
theorem claim_C6 (bl pf : List OccEntry) (genes : List Gene) (i : Nat)
    (g : Gene) (d : Nat) (s : Int)
    (hg : genes[i]? = some g)
    (hmem : (d, s) ∈ possibleSlots bl genes i)
    (hnd : g.faculty_ids.Nodup) :
    geneH1 (calcState bl pf
        ((genes.set i { g with day := some d, start_period := some s }).take i))
      { g with day := some d, start_period := some s } = 0 ∧
    geneH2 (calcState bl pf
        ((genes.set i { g with day := some d, start_period := some s }).take i))
      { g with day := some d, start_period := some s } = 0 ∧
    geneH3 bl { g with day := some d, start_period := some s } = 0 := by
  have hok := possibleSlots_ok bl genes i g hg d s hmem
  have hspec := slotOk_spec bl g (tempSemOcc genes i) (tempFacOcc genes i) d s hok
  have htake : (genes.set i { g with day := some d, start_period := some s }).take i
      = genes.take i := take_set_self genes i _
  rw [htake]
  have hocc' : occupiedOf { g with day := some d, start_period := some s } =
      geneTimeslots d s g.periods_count := rfl
  have hndts : (geneTimeslots d s g.periods_count).Nodup :=
    geneTimeslots_nodup d s g.periods_count
  refine ⟨?_, ?_, ?_⟩
  · unfold geneH1
    rw [hocc']
    refine (scanOcc_no_hit g.semester_id (geneTimeslots d s g.periods_count)
        (calcState bl pf (genes.take i)).semOcc ?_ hndts).1
    intro t ht hcontra
    rcases foldl_semOcc_sound bl pf (genes.take i) initCalcState _ hcontra with
      h | ⟨gE, hgE, he1, he2⟩
    · simp [initCalcState] at h
    · have hmemE : (gE.semester_id, t.1, t.2) ∈ tempSemOcc genes i := by
        have := mem_tempSemOcc genes i gE (t.1, t.2)
          (take_mem_eraseIdx genes i gE hgE) he2
        simpa using this
      have hsem := (hspec t ht).1
      apply hsem
      rw [show g.semester_id = gE.semester_id from he1]
      exact hmemE
  · unfold geneH2
    rw [hocc']
    refine facFold_no_hit (geneTimeslots d s g.periods_count) hndts g.faculty_ids
        (calcState bl pf (genes.take i)).facOcc 0 hnd ?_
    intro fid hfid t ht hcontra
    rcases foldl_facOcc_sound bl pf (genes.take i) initCalcState _ hcontra with
      h | ⟨gE, hgE, he1, he2⟩
    · simp [initCalcState] at h
    · have hmemE : (fid, t.1, t.2) ∈ tempFacOcc genes i := by
        have := mem_tempFacOcc genes i gE fid (t.1, t.2)
          (take_mem_eraseIdx genes i gE hgE) he1 he2
        simpa using this
      exact ((hspec t ht).2 fid hfid).1 hmemE
  · unfold geneH3 blockedPen
    apply List.sum_eq_zero
    intro x hx
    rcases List.mem_map.mp hx with ⟨fid, hfid, rfl⟩
    have hnone : (occupiedOf { g with day := some d, start_period := some s }).any
        (fun t => decide ((fid, t.1, t.2) ∈ bl)) = false := by
      rw [hocc']
      rw [List.any_eq_false]
      intro t ht
      simp only [decide_eq_true_eq]
      exact ((hspec t ht).2 fid hfid).2
    rw [hnone]
    rfl

/-- Witness for C6: placing the sole gene of a one-gene chromosome at the
oracle's candidate (day 0, period 1) yields zero H1/H2/H3 contributions. -/
theorem claim_C6_witness :
    (([gW] : List Gene)[0]? = some gW ∧
     ((0 : Nat), (1 : Int)) ∈ possibleSlots [] [gW] 0 ∧
     gW.faculty_ids.Nodup) ∧
    (geneH1 (calcState [] []
        (([gW].set 0 { gW with day := some 0, start_period := some 1 }).take 0))
      { gW with day := some 0, start_period := some 1 } = 0 ∧
    geneH2 (calcState [] []
        (([gW].set 0 { gW with day := some 0, start_period := some 1 }).take 0))
      { gW with day := some 0, start_period := some 1 } = 0 ∧
    geneH3 [] { gW with day := some 0, start_period := some 1 } = 0) :=
  ⟨⟨by decide, by decide, by decide⟩,
   claim_C6 [] [] [gW] 0 gW 0 1 (by decide) (by decide) (by decide)⟩

/-- Counterexample for C6 as stated: for a lab gene listing the same
faculty twice, the oracle returns a placement (its collision filter only
looks at *other* genes), yet scoring the placed gene charges H2 = 1000:
the second pass over the duplicated faculty id finds the timeslots the
first pass just recorded.  The claim's "zero H1/H2/H3 contributions" is
false without assuming distinct faculty ids. -/
theorem claim_C6_counterexample :
    findEmptySlot [] [cexC6] 0 = some (0, 1) ∧
    ((0 : Nat), (1 : Int)) ∈ possibleSlots [] [cexC6] 0 ∧
    geneH2 (calcState [] []
        (([cexC6].set 0 { cexC6 with day := some 0, start_period := some 1 }).take 0))
      { cexC6 with day := some 0, start_period := some 1 } = 1000 := by
  refine ⟨by decide, by decide, by decide⟩
